import Mathlib

/-!
Shallow embedding of the autonomous decision engine implemented in
`benchmark/src/swarm_benchmark/automation/decision_engine.py`.

Modelling conventions:
* Python numbers (`int`/`float`) are modelled as exact rationals `ℚ`;
  Python booleans and strings are modelled by `Bool` and `String`.
* Python dictionaries with string keys are modelled as association lists
  (`List (String × ·)`), looked up by first matching key.
* Python exceptions are modelled with the `Except` monad; an exception
  raised inside a strategy is a `StrategyError`, an exception escaping
  `make_decision` is an `EngineError`.
* Wall-clock time is abstracted away: `execution_time_ms` is fixed to `0`
  and the `datetime` fields (`timestamp`, `decision_time`) are omitted,
  since no verified property mentions them.
-/

namespace SwarmAutomation

/-- A Python value appearing as an option attribute, a constraint datum or a
state entry: a number (`int`/`float` as an exact rational), a boolean, or a
string. -/
inductive Value where
  | num (q : ℚ)
  | bool (b : Bool)
  | str (s : String)
deriving DecidableEq, Repr

/-- An option record: a Python `Dict[str, Any]` as an association list. -/
abbrev Opt := List (String × Value)

/-- `d.get(k)` / `k in d`: first-match lookup in an association list. -/
def dictGet : Opt → String → Option Value
  | [], _ => none
  | (k', v) :: rest, k => if k' = k then some v else dictGet rest k

/-- Python `==` on attribute values: numbers and booleans compare numerically
(`True == 1` holds in Python), strings compare as strings, and values of
incomparable kinds are unequal. -/
def valEq : Value → Value → Bool
  | .num a, .num b => a == b
  | .num a, .bool b => a == (if b then 1 else 0)
  | .bool a, .num b => (if a then (1 : ℚ) else 0) == b
  | .bool a, .bool b => a == b
  | .str a, .str b => a == b
  | _, _ => false

/-- Exceptions that can be raised inside a strategy's `evaluate`. -/
inductive StrategyError where
  | zeroDivision
  | typeError
deriving DecidableEq, Repr

/-- Python `v < q` for an attribute value against a numeric bound: booleans
compare as 1/0, a string compared with a number raises `TypeError`. -/
def valLt (v : Value) (q : ℚ) : Except StrategyError Bool :=
  match v with
  | .num x => .ok (x < q)
  | .bool b => .ok ((if b then (1 : ℚ) else 0) < q)
  | .str _ => .error .typeError

/-- Python `v > q`, with the same comparison semantics as `valLt`. -/
def valGt (v : Value) (q : ℚ) : Except StrategyError Bool :=
  match v with
  | .num x => .ok (q < x)
  | .bool b => .ok (q < (if b then (1 : ℚ) else 0))
  | .str _ => .error .typeError

/-- `DecisionType`: the closed set of decision categories. -/
inductive DecisionType where
  | resource_allocation
  | task_prioritization
  | error_handling
  | optimization
  | routing
  | scaling
deriving DecidableEq, Repr

/-- A hard constraint value from `context.constraints`: a `{min, max, equals}`
mapping (each key optional, numeric bounds), a list/tuple of allowed values,
or a bare scalar requiring equality. -/
inductive ConstraintSpec where
  | range (lo hi : Option ℚ) (eqv : Option Value)
  | allowed (vs : List Value)
  | scalar (v : Value)
deriving DecidableEq, Repr

/-- `DecisionContext`: context information for decision making. -/
structure DecisionContext where
  decision_type : DecisionType
  current_state : List (String × Value)
  available_options : List Opt
  constraints : List (String × ConstraintSpec)
  preferences : List (String × Value)
  historical_data : List Opt
deriving Repr

/-- `DecisionResult`: result of a decision-making process.  The
`selected_option` is `Option Opt` because Python initializes
`best_option = None` and a strategy may in principle hand back `None`. -/
structure DecisionResult where
  selected_option : Option Opt
  confidence : ℚ
  reasoning : String
  alternative_options : List (Option Opt)
  risk_factors : List String
  expected_outcome : Option (List (String × Value))
  execution_time_ms : ℚ
deriving DecidableEq, Repr, Inhabited

/-- `WeightedScoringStrategy._meets_constraint`: check if a value meets a
constraint.  `min`/`max` checks may raise `TypeError` on a string value;
`equals`, membership and scalar checks use Python `==` and never raise. -/
def meets_constraint (v : Value) : ConstraintSpec → Except StrategyError Bool
  | .range lo hi eqv => do
    if let some m := lo then
      if ← valLt v m then return false
    if let some m := hi then
      if ← valGt v m then return false
    if let some e := eqv then
      if ¬ valEq v e then return false
    return true
  | .allowed vs => .ok (vs.any (valEq v))
  | .scalar s => .ok (valEq v s)

/-- One criterion's contribution `value * weight` to a weighted score:
numeric values are used directly, booleans are coerced to 1/0 (in Python the
`isinstance(value, (int, float))` branch already catches `bool`, with the
same numeric result), any other value and any missing key contribute 0. -/
def contrib (o : Opt) (criterion : String) (weight : ℚ) : ℚ :=
  match dictGet o criterion with
  | some (.num x) => x * weight
  | some (.bool b) => (if b then 1 else 0) * weight
  | _ => 0

/-- The weighted sum of `_calculate_score` before constraint penalties:
`sum(option[criterion] * weight for criterion, weight in weights)`. -/
def rawScore (weights : List (String × ℚ)) (o : Opt) : ℚ :=
  match weights with
  | [] => 0
  | (c, w) :: rest => contrib o c w + rawScore rest o

/-- The constraint-penalty loop of `_calculate_score`: for each constraint
whose key the option carries, subtract 1000 if the constraint is violated.
A `TypeError` raised by a comparison propagates. -/
def applyConstraints (o : Opt) : List (String × ConstraintSpec) → ℚ → Except StrategyError ℚ
  | [], s => .ok s
  | (nm, c) :: rest, s =>
    match dictGet o nm with
    | none => applyConstraints o rest s
    | some v =>
      match meets_constraint v c with
      | .error e => .error e
      | .ok true => applyConstraints o rest s
      | .ok false => applyConstraints o rest (s - 1000)

/-- `WeightedScoringStrategy._calculate_score`: weighted sum, then a 1000
penalty per violated constraint found on the option. -/
def calculate_score (weights : List (String × ℚ)) (cs : List (String × ConstraintSpec))
    (o : Opt) : Except StrategyError ℚ :=
  applyConstraints o cs (rawScore weights o)

/-- The number of constraints an option violates (counting only constraints
whose key the option carries), with the same error behaviour as the penalty
loop.  Used to state penalty facts; see `applyConstraints_eq_countViol`. -/
def countViol (o : Opt) : List (String × ConstraintSpec) → Except StrategyError ℕ
  | [] => .ok 0
  | (nm, c) :: rest =>
    match dictGet o nm with
    | none => countViol o rest
    | some v =>
      match meets_constraint v c with
      | .error e => .error e
      | .ok true => countViol o rest
      | .ok false => (countViol o rest).map (· + 1)

/-- The scoring loop of `WeightedScoringStrategy.evaluate`: pair every option
with its score, in order; the first raising score computation aborts. -/
def scoresList (weights : List (String × ℚ)) (cs : List (String × ConstraintSpec)) :
    List Opt → Except StrategyError (List (Opt × ℚ))
  | [] => .ok []
  | o :: rest =>
    match calculate_score weights cs o with
    | .error e => .error e
    | .ok s =>
      match scoresList weights cs rest with
      | .error e => .error e
      | .ok tail => .ok ((o, s) :: tail)

/-- The running best of the scoring loop: `best_option`/`best_score` start at
`None`/`-inf` and are replaced on a strictly greater score, so the first
option attaining the maximal score wins. -/
def scanBest : List (Opt × ℚ) → Option (Opt × ℚ) → Option (Opt × ℚ)
  | [], best => best
  | (o, s) :: rest, none => scanBest rest (some (o, s))
  | (o, s) :: rest, some (bo, bs) =>
    scanBest rest (some (if bs < s then (o, s) else (bo, bs)))

/-- Descending order on rationals, used for `scores.sort(reverse=True)`. -/
def qGe (a b : ℚ) : Prop := b ≤ a

instance : DecidableRel qGe := fun a b => inferInstanceAs (Decidable (b ≤ a))

instance : IsTotal ℚ qGe := ⟨fun a b => le_total b a⟩

instance : IsTrans ℚ qGe := ⟨fun _ _ _ h1 h2 => le_trans h2 h1⟩

/-- `scores.sort(key=lambda x: x[1], reverse=True)`, projected to the score
values (only positions 0 and 1 of the sorted sequence are ever read). -/
def sortScores (l : List ℚ) : List ℚ := List.insertionSort qGe l

/-- The confidence normalization of `WeightedScoringStrategy.evaluate`:
with more than one candidate, `(top - second) / top` clamped to
`[0.1, 0.95]`, raising `ZeroDivisionError` when the top score is exactly 0;
otherwise a flat 0.5. -/
def wsConfidence (scores : List (Opt × ℚ)) : Except StrategyError ℚ :=
  if 1 < scores.length then
    let sorted := sortScores (scores.map Prod.snd)
    let top := sorted.headD 0
    let second := (sorted.drop 1).headD 0
    if top = 0 then .error .zeroDivision
    else .ok (min (0.95 : ℚ) (max (0.1 : ℚ) ((top - second) / top)))
  else .ok (0.5 : ℚ)

/-- Rendering of `best_score` into the reasoning string; abstracts Python's
`f"{best_score:.3f}"` float formatting (no claim depends on this text). -/
def fmtScore : Option (Opt × ℚ) → String
  | none => "-inf"
  | some (_, s) => toString s

/-- `WeightedScoringStrategy.evaluate`: score every option, track the best,
normalize confidence from the top-two score gap. -/
def WeightedScoringStrategy.evaluate (weights : List (String × ℚ)) (ctx : DecisionContext) :
    Except StrategyError (Option Opt × ℚ × String) :=
  match scoresList weights ctx.constraints ctx.available_options with
  | .error e => .error e
  | .ok scores =>
    let best := scanBest scores none
    match wsConfidence scores with
    | .error e => .error e
    | .ok conf =>
      .ok (best.map Prod.fst, conf,
        "Selected based on weighted scoring (score: " ++ fmtScore best ++ ")")

/-- A decision strategy: a name and an `evaluate` capability.  An arbitrary
function models an arbitrary `DecisionStrategy` subclass. -/
structure Strategy where
  name : String
  evaluate : DecisionContext → Except StrategyError (Option Opt × ℚ × String)

/-- A `WeightedScoringStrategy` instance (its `name` is fixed by
`super().__init__("weighted_scoring")`). -/
def weightedScoringStrategy (weights : List (String × ℚ)) : Strategy :=
  ⟨"weighted_scoring", WeightedScoringStrategy.evaluate weights⟩

/-- Exceptions that can escape `make_decision` itself. -/
inductive EngineError where
  | invalidInput
  | typeError
  | attributeError
deriving DecidableEq, Repr

/-- `DecisionEngine._predict_outcome`: a deterministic projection of the
winning option.  Receiving `None` raises `AttributeError` (`None.get`); a
non-numeric `reliability_score` raises `TypeError` in the `> 0.8` check. -/
def predict_outcome (sel : Option Opt) : Except EngineError (List (String × Value)) :=
  match sel with
  | none => .error .attributeError
  | some o =>
    let rel := (dictGet o "reliability_score").getD (.num (0.8 : ℚ))
    match valGt rel (0.8 : ℚ) with
    | .error _ => .error .typeError
    | .ok high =>
      .ok [("expected_success_rate", rel),
           ("estimated_completion_time", (dictGet o "estimated_time").getD (.str "unknown")),
           ("estimated_cost", (dictGet o "cost").getD (.num 0)),
           ("risk_level", .str (if high then "low" else "medium"))]

/-- The strategy registry: `Dict[DecisionType, List[DecisionStrategy]]` as an
insertion-ordered association list. -/
abbrev Registry := List (DecisionType × List Strategy)

/-- Registry lookup, `none` when the decision type has no entry. -/
def lookupRegistry : Registry → DecisionType → Option (List Strategy)
  | [], _ => none
  | (t, ss) :: rest, t' => if t = t' then some ss else lookupRegistry rest t'

/-- Append a strategy under a decision type, creating the entry if absent
(`DecisionEngine.add_strategy` on the raw registry). -/
def addToRegistry : Registry → DecisionType → Strategy → Registry
  | [], t, s => [(t, [s])]
  | (t', ss) :: rest, t, s =>
    if t' = t then (t', ss ++ [s]) :: rest else (t', ss) :: addToRegistry rest t s

/-- `DecisionEngine` state: the strategy registry, the decision history, the
configured `max_history_size` (absent key modelled as `none`), and the
engine-wide fallback strategy created in `__init__`. -/
structure DecisionEngine where
  strategies : Registry
  decision_history : List DecisionResult
  config_max_history : Option Int
  fallback_strategy : Strategy

/-- `DecisionEngine.add_strategy`. -/
def add_strategy (e : DecisionEngine) (t : DecisionType) (s : Strategy) : DecisionEngine :=
  ⟨addToRegistry e.strategies t s, e.decision_history, e.config_max_history, e.fallback_strategy⟩

/-- Modelled from the spec: `ConfigurableComponent.get_config_value` (the
`core.base_interfaces` module is not under `src/`); per the spec a missing
`max_history_size` key is tolerated and the default 1000 applied, so the
getter returns the configured integer when present and 1000 otherwise. -/
def getMaxHistory (e : DecisionEngine) : Int :=
  e.config_max_history.getD 1000

/-- Python `l[i:]` for a possibly negative start index. -/
def pySliceFrom (l : List α) (i : Int) : List α :=
  if 0 ≤ i then l.drop i.toNat
  else l.drop (max 0 ((l.length : Int) + i)).toNat

/-- `DecisionEngine._store_decision`: append, then trim to the last
`max_history` entries via Python's `history[-max_history:]`. -/
def store_decision (maxHistory : Int) (h : List DecisionResult) (r : DecisionResult) :
    List DecisionResult :=
  let h' := h ++ [r]
  if maxHistory < (h'.length : Int) then pySliceFrom h' (-maxHistory) else h'

/-- `self.strategies.get(context.decision_type, [self.fallback_strategy])`. -/
def strategiesFor (e : DecisionEngine) (t : DecisionType) : List Strategy :=
  (lookupRegistry e.strategies t).getD [e.fallback_strategy]

/-- One successful strategy evaluation as recorded by `make_decision`. -/
structure Evaluation where
  option : Option Opt
  confidence : ℚ
  reasoning : String
  strategy_name : String
deriving Repr

/-- The strategy loop of `make_decision`: run every strategy in order,
keeping successful evaluations and skipping any that raises. -/
def collectEvals (strats : List Strategy) (ctx : DecisionContext) : List Evaluation :=
  match strats with
  | [] => []
  | s :: rest =>
    match s.evaluate ctx with
    | .ok (o, c, r) => ⟨o, c, r, s.name⟩ :: collectEvals rest ctx
    | .error _ => collectEvals rest ctx

/-- Descending order on evaluations by confidence, used for
`evaluations.sort(key=lambda x: x[1], reverse=True)` (insertion sort is
stable, like Python's sort). -/
def evalGe (a b : Evaluation) : Prop := b.confidence ≤ a.confidence

instance : DecidableRel evalGe := fun a b => inferInstanceAs (Decidable (b.confidence ≤ a.confidence))

/-- The selection step of `make_decision`: the degraded fallback when no
strategy produced an evaluation, otherwise the highest-confidence one. -/
def selectionOf (ctx : DecisionContext) (sortedEvals : List Evaluation) :
    Option Opt × ℚ × String × String :=
  match sortedEvals with
  | [] => (some (ctx.available_options.headD []), (0.1 : ℚ),
           "Fallback selection - no strategies succeeded", "fallback")
  | ev :: _ => (ev.option, ev.confidence, ev.reasoning, ev.strategy_name)

/-- Assembly of the `DecisionResult` record in `make_decision`
(`execution_time_ms` abstracted to 0, see the module docstring). -/
def mkResult (sel : Option Opt × ℚ × String × String) (sortedEvals : List Evaluation)
    (outcome : List (String × Value)) : DecisionResult :=
  ⟨sel.1, sel.2.1, sel.2.2.1 ++ " (via " ++ sel.2.2.2 ++ ")",
   ((sortedEvals.drop 1).take 4).map Evaluation.option, [], some outcome, 0⟩

/-- `DecisionEngine.make_decision`: raise `ValueError` (`invalidInput`) on an
empty option list; run all strategies for the decision type, absorbing their
exceptions; select the highest-confidence evaluation or degrade to the first
option; predict the outcome; store the result in bounded history. -/
def make_decision (e : DecisionEngine) (ctx : DecisionContext) :
    Except EngineError (DecisionResult × DecisionEngine) :=
  if ctx.available_options.isEmpty then .error .invalidInput
  else
    let strats := strategiesFor e ctx.decision_type
    let evals := collectEvals strats ctx
    let sortedEvals := List.insertionSort evalGe evals
    let sel := selectionOf ctx sortedEvals
    match predict_outcome sel.1 with
    | .error er => .error er
    | .ok outcome =>
      let result := mkResult sel sortedEvals outcome
      .ok (result,
        ⟨e.strategies, store_decision (getMaxHistory e) e.decision_history result,
         e.config_max_history, e.fallback_strategy⟩)

/-- The engine-wide fallback weights set in `DecisionEngine.__init__`. -/
def fallbackWeights : List (String × ℚ) :=
  [("performance", (0.4 : ℚ)), ("cost", (-0.3 : ℚ)), ("reliability", (0.3 : ℚ))]

/-- The resource-allocation default strategy weights. -/
def resourceWeights : List (String × ℚ) :=
  [("available_cpu", (0.3 : ℚ)), ("available_memory", (0.3 : ℚ)),
   ("cost_per_hour", (-0.2 : ℚ)), ("reliability_score", (0.2 : ℚ))]

/-- The task-prioritization default strategy weights. -/
def priorityWeights : List (String × ℚ) :=
  [("deadline_urgency", (0.4 : ℚ)), ("business_value", (0.3 : ℚ)),
   ("complexity", (-0.2 : ℚ)), ("dependencies", (-0.1 : ℚ))]

/-- The error-handling default strategy weights. -/
def errorWeights : List (String × ℚ) :=
  [("recovery_probability", (0.5 : ℚ)), ("recovery_time", (-0.3 : ℚ)),
   ("impact_severity", (-0.2 : ℚ))]

/-- The registry built by `_setup_default_strategies`. -/
def defaultRegistry : Registry :=
  [(.resource_allocation, [weightedScoringStrategy resourceWeights]),
   (.task_prioritization, [weightedScoringStrategy priorityWeights]),
   (.error_handling, [weightedScoringStrategy errorWeights])]

/-- `DecisionEngine(config)`: default strategies installed, empty history,
the given `max_history_size` configuration. -/
def mkEngine (cfgMaxHistory : Option Int) : DecisionEngine :=
  ⟨defaultRegistry, [], cfgMaxHistory, weightedScoringStrategy fallbackWeights⟩

/-- `DecisionEngine()` with no configuration supplied. -/
def defaultEngine : DecisionEngine := mkEngine none

/-- A sequence of `make_decision` calls threading the engine state; a call
that raises leaves the engine unchanged (the history append happens after
every raising point). -/
def run_decisions (e : DecisionEngine) : List DecisionContext → DecisionEngine
  | [] => e
  | c :: cs =>
    match make_decision e c with
    | .ok (_, e') => run_decisions e' cs
    | .error _ => run_decisions e cs

/-! ### Observers of `make_decision` used in concrete statements

The engine state contains strategy functions, so full results are observed
through these projections (which are decidable to compare). -/

/-- The selected option of a successful `make_decision` call. -/
def mdSelOf (e : DecisionEngine) (ctx : DecisionContext) : Option (Option Opt) :=
  match make_decision e ctx with
  | .ok p => some p.1.selected_option
  | .error _ => none

/-- The confidence of a successful `make_decision` call. -/
def mdConfOf (e : DecisionEngine) (ctx : DecisionContext) : Option ℚ :=
  match make_decision e ctx with
  | .ok p => some p.1.confidence
  | .error _ => none

/-- The error raised by a failing `make_decision` call. -/
def mdErrOf (e : DecisionEngine) (ctx : DecisionContext) : Option EngineError :=
  match make_decision e ctx with
  | .ok _ => none
  | .error er => some er

/-- The history length of the engine returned by a successful
`make_decision` call (0 when the call raised). -/
def mdHistLenOf (e : DecisionEngine) (ctx : DecisionContext) : ℕ :=
  match make_decision e ctx with
  | .ok p => p.2.decision_history.length
  | .error _ => 0

/-! ### Concrete instances used by the claim theorems -/

/-- A minimal well-behaved option. -/
def optA : Opt := [("a", Value.num 1)]

/-- A one-option context for a category with no registered strategies. -/
def ctxA : DecisionContext := ⟨.optimization, [], [optA], [], [], []⟩

/-- The first option of the spec's regression scenario (§8). -/
def opt5a : Opt :=
  [("performance", Value.num (0.9 : ℚ)), ("cost", Value.num 10),
   ("reliability", Value.num (0.95 : ℚ))]

/-- The second option of the spec's regression scenario (§8). -/
def opt5b : Opt :=
  [("performance", Value.num (0.5 : ℚ)), ("cost", Value.num 1),
   ("reliability", Value.num (0.99 : ℚ))]

/-- The spec's regression scenario: both options, no constraints, a category
with no registered strategies (so the engine-wide fallback weights apply). -/
def ctx5 : DecisionContext := ⟨.optimization, [], [opt5a, opt5b], [], [], []⟩

/-- A context whose only option carries a string `reliability_score`. -/
def ctx2 : DecisionContext :=
  ⟨.optimization, [], [[("reliability_score", Value.str "high")]], [], [], []⟩

/-- An engine configured with `max_history_size = 0`. -/
def engine3 : DecisionEngine := mkEngine (some 0)

/-- An engine configured with `max_history_size = 2`. -/
def engineW3 : DecisionEngine := mkEngine (some 2)

/-- A registrable strategy whose `evaluate` always raises. -/
def failStrategy : Strategy := ⟨"fail", fun _ => .error .typeError⟩

/-- The default engine with the always-raising strategy registered for
`optimization` decisions. -/
def engine7 : DecisionEngine := add_strategy defaultEngine .optimization failStrategy

/-- The fallback-path decision: every strategy for the type raises. -/
def md7 : Except EngineError (DecisionResult × DecisionEngine) := make_decision engine7 ctxA

/-- The result of the fallback-path decision. -/
def r7 : DecisionResult :=
  match md7 with
  | .ok p => p.1
  | .error _ => default

/-- The engine returned by the fallback-path decision. -/
def e7res : DecisionEngine :=
  match md7 with
  | .ok p => p.2
  | .error _ => engine7

/-- An option that never occurs in any context used below. -/
def rogueOpt : Opt := [("foo", Value.num 1)]

/-- A registrable strategy that returns an option foreign to the context. -/
def rogueStrategy : Strategy := ⟨"rogue", fun _ => .ok (some rogueOpt, (0.9 : ℚ), "r")⟩

/-- The default engine with the rogue strategy registered for
`optimization` decisions. -/
def engine1 : DecisionEngine := add_strategy defaultEngine .optimization rogueStrategy

/-- The result of a default-engine decision on `ctxA` (for the confidence
bound witness). -/
def md6 : Except EngineError (DecisionResult × DecisionEngine) := make_decision defaultEngine ctxA

/-- The decision result of `md6`. -/
def r6 : DecisionResult :=
  match md6 with
  | .ok p => p.1
  | .error _ => default

/-- The engine returned by `md6`. -/
def e6res : DecisionEngine :=
  match md6 with
  | .ok p => p.2
  | .error _ => defaultEngine

/-- Constraint-violating option with a huge unconstrained attribute. -/
def oA4 : Opt := [("x", Value.num 5000), ("cost", Value.num 10)]

/-- Constraint-satisfying option with a small attribute. -/
def oB4 : Opt := [("x", Value.num 0), ("cost", Value.num 1)]

/-- The constraint `cost ≤ 5`. -/
def cs4 : List (String × ConstraintSpec) := [("cost", ConstraintSpec.range none (some 5) none)]

/-- A context where the constraint violator outscores every clean option. -/
def ctx4 : DecisionContext := ⟨.optimization, [], [oA4, oB4], cs4, [], []⟩

/-- A two-option unconstrained context for the constraint-respecting
witness. -/
def ctx4w : DecisionContext :=
  ⟨.optimization, [], [[("x", Value.num 2)], [("x", Value.num 1)]], [], [], []⟩

/-- The weighted-scoring evaluation of `ctx4w` with weight `x ↦ 1`. -/
def ws4w : Except StrategyError (Option Opt × ℚ × String) :=
  WeightedScoringStrategy.evaluate [("x", (1 : ℚ))] ctx4w

/-- The option selected by `ws4w`. -/
def c4wBest : Opt :=
  match ws4w with
  | .ok (some b, _, _) => b
  | _ => []

/-- The confidence reported by `ws4w`. -/
def c4wConf : ℚ :=
  match ws4w with
  | .ok (_, c, _) => c
  | _ => 0

/-- The reasoning reported by `ws4w`. -/
def c4wReas : String :=
  match ws4w with
  | .ok (_, _, s) => s
  | _ => ""

/-- Option pair differing only in the positively weighted `x`, engineered so
the higher option's total score is exactly 0. -/
def o8hi : Opt := [("x", Value.num 1), ("y", Value.num (-1))]

/-- The lower-valued companion of `o8hi`. -/
def o8lo : Opt := [("x", Value.num 0), ("y", Value.num (-1))]

/-- The context exhibiting the zero-top-score division. -/
def ctx8 : DecisionContext := ⟨.optimization, [], [o8hi, o8lo], [], [], []⟩

/-- Higher option for the monotonicity witness. -/
def o8a : Opt := [("x", Value.num 2)]

/-- Lower option for the monotonicity witness. -/
def o8b : Opt := [("x", Value.num 1)]

/-- The default engine with a weighted strategy over an empty weight table
registered for `optimization` decisions. -/
def engine10 : DecisionEngine :=
  add_strategy defaultEngine .optimization (weightedScoringStrategy [])

/-- Two options that all score 0 under the empty weight table. -/
def ctx10 : DecisionContext :=
  ⟨.optimization, [], [[("a", Value.num 1)], [("b", Value.num 2)]], [], [], []⟩

/-! ### Helper lemmas about the scoring primitives -/

/-- The constraint-penalty loop computes `score - 1000 * violations`. -/
theorem applyConstraints_eq_countViol (o : Opt) (cs : List (String × ConstraintSpec)) (s : ℚ) :
    applyConstraints o cs s = (countViol o cs).map (fun n : ℕ => s - 1000 * (n : ℚ)) := by
  induction cs generalizing s with
  | nil => simp [applyConstraints, countViol, Except.map]
  | cons c rest ih =>
    obtain ⟨nm, cv⟩ := c
    cases hd : dictGet o nm with
    | none =>
      simp only [applyConstraints, countViol, hd]
      exact ih s
    | some v =>
      simp only [applyConstraints, countViol, hd]
      cases hm : meets_constraint v cv with
      | error e => simp [Except.map]
      | ok bv =>
        cases bv with
        | true => exact ih s
        | false =>
          rw [ih (s - 1000)]
          cases hcv : countViol o rest with
          | error e => simp [Except.map]
          | ok m =>
            simp only [Except.map]
            congr 1
            push_cast
            ring

/-- A successful score list pairs exactly the context's options with their
scores, in order. -/
theorem scoresList_ok_mem {w : List (String × ℚ)} {cs : List (String × ConstraintSpec)} :
    ∀ {opts : List Opt} {scores : List (Opt × ℚ)}, scoresList w cs opts = .ok scores →
      ∀ p ∈ scores, p.1 ∈ opts ∧ calculate_score w cs p.1 = .ok p.2 := by
  intro opts
  induction opts with
  | nil =>
    intro scores h p hp
    simp only [scoresList, Except.ok.injEq] at h
    subst h
    simp at hp
  | cons o rest ih =>
    intro scores h p hp
    simp only [scoresList] at h
    cases hc : calculate_score w cs o with
    | error e => rw [hc] at h; exact absurd h (by simp)
    | ok s =>
      rw [hc] at h
      cases ht : scoresList w cs rest with
      | error e => rw [ht] at h; exact absurd h (by simp)
      | ok tail =>
        rw [ht] at h
        simp only [Except.ok.injEq] at h
        subst h
        rcases List.mem_cons.mp hp with rfl | hp'
        · exact ⟨List.mem_cons_self .., hc⟩
        · obtain ⟨h1, h2⟩ := ih ht p hp'
          exact ⟨List.mem_cons_of_mem _ h1, h2⟩

/-- Every option of a successfully scored context occurs in the score list
with its score. -/
theorem scoresList_mem_ok {w : List (String × ℚ)} {cs : List (String × ConstraintSpec)} :
    ∀ {opts : List Opt} {scores : List (Opt × ℚ)}, scoresList w cs opts = .ok scores →
      ∀ o ∈ opts, ∃ s, (o, s) ∈ scores ∧ calculate_score w cs o = .ok s := by
  intro opts
  induction opts with
  | nil => intro scores _ o ho; simp at ho
  | cons o rest ih =>
    intro scores h o' ho'
    simp only [scoresList] at h
    cases hc : calculate_score w cs o with
    | error e => rw [hc] at h; exact absurd h (by simp)
    | ok s =>
      rw [hc] at h
      cases ht : scoresList w cs rest with
      | error e => rw [ht] at h; exact absurd h (by simp)
      | ok tail =>
        rw [ht] at h
        simp only [Except.ok.injEq] at h
        subst h
        rcases List.mem_cons.mp ho' with rfl | ho''
        · exact ⟨s, List.mem_cons_self .., hc⟩
        · obtain ⟨s', h1, h2⟩ := ih ht o' ho''
          exact ⟨s', List.mem_cons_of_mem _ h1, h2⟩

/-- A successful score list has one entry per option. -/
theorem scoresList_length {w : List (String × ℚ)} {cs : List (String × ConstraintSpec)} :
    ∀ {opts : List Opt} {scores : List (Opt × ℚ)}, scoresList w cs opts = .ok scores →
      scores.length = opts.length := by
  intro opts
  induction opts with
  | nil =>
    intro scores h
    simp only [scoresList, Except.ok.injEq] at h
    subst h
    rfl
  | cons o rest ih =>
    intro scores h
    simp only [scoresList] at h
    cases hc : calculate_score w cs o with
    | error e => rw [hc] at h; exact absurd h (by simp)
    | ok s =>
      rw [hc] at h
      cases ht : scoresList w cs rest with
      | error e => rw [ht] at h; exact absurd h (by simp)
      | ok tail =>
        rw [ht] at h
        simp only [Except.ok.injEq] at h
        subst h
        simp [ih ht]

/-- The running-best scan returns an element of the scanned list (or its
seed), and its score dominates the seed and every scanned score. -/
theorem scanBest_spec :
    ∀ (l : List (Opt × ℚ)) (acc : Option (Opt × ℚ)) (p : Opt × ℚ),
      scanBest l acc = some p →
      (acc = some p ∨ p ∈ l) ∧ (∀ q : Opt × ℚ, acc = some q → q.2 ≤ p.2) ∧
        (∀ q ∈ l, q.2 ≤ p.2) := by
  intro l
  induction l with
  | nil =>
    intro acc p h
    simp only [scanBest] at h
    refine ⟨Or.inl h, ?_, by simp⟩
    intro q hq
    rw [h] at hq
    simp only [Option.some.injEq] at hq
    subst hq
    exact le_refl _
  | cons hd rest ih =>
    obtain ⟨o, s⟩ := hd
    intro acc p h
    cases acc with
    | none =>
      simp only [scanBest] at h
      obtain ⟨hmem, hacc, hrest⟩ := ih (some (o, s)) p h
      have hs : s ≤ p.2 := hacc (o, s) rfl
      refine ⟨?_, by simp, ?_⟩
      · rcases hmem with he | hm
        · simp only [Option.some.injEq] at he
          exact Or.inr (he ▸ List.mem_cons_self ..)
        · exact Or.inr (List.mem_cons_of_mem _ hm)
      · intro q hq
        rcases List.mem_cons.mp hq with rfl | hq'
        · exact hs
        · exact hrest q hq'
    | some bp =>
      obtain ⟨bo, bs⟩ := bp
      simp only [scanBest] at h
      obtain ⟨hmem, hacc, hrest⟩ := ih _ p h
      have hm2 : bs ≤ (if bs < s then (o, s) else (bo, bs)).2 ∧
          s ≤ (if bs < s then (o, s) else (bo, bs)).2 := by
        by_cases hbs : bs < s
        · rw [if_pos hbs]; exact ⟨le_of_lt hbs, le_refl s⟩
        · rw [if_neg hbs]; exact ⟨le_refl bs, not_lt.mp hbs⟩
      have hmp : (if bs < s then (o, s) else (bo, bs)).2 ≤ p.2 := hacc _ rfl
      refine ⟨?_, ?_, ?_⟩
      · rcases hmem with he | hm
        · simp only [Option.some.injEq] at he
          by_cases hbs : bs < s
          · rw [if_pos hbs] at he
            exact Or.inr (he ▸ List.mem_cons_self ..)
          · rw [if_neg hbs] at he
            exact Or.inl (by rw [he])
        · exact Or.inr (List.mem_cons_of_mem _ hm)
      · intro q hq
        simp only [Option.some.injEq] at hq
        subst hq
        exact le_trans hm2.1 hmp
      · intro q hq
        rcases List.mem_cons.mp hq with rfl | hq'
        · exact le_trans hm2.2 hmp
        · exact hrest q hq'

/-- Every collected evaluation came from a strategy in the list that
succeeded with exactly those components. -/
theorem mem_collectEvals :
    ∀ {strats : List Strategy} {ctx : DecisionContext} {ev : Evaluation},
      ev ∈ collectEvals strats ctx →
      ∃ s ∈ strats, s.evaluate ctx = .ok (ev.option, ev.confidence, ev.reasoning) := by
  intro strats
  induction strats with
  | nil => intro ctx ev h; simp [collectEvals] at h
  | cons s rest ih =>
    intro ctx ev h
    simp only [collectEvals] at h
    cases hs : s.evaluate ctx with
    | error e =>
      rw [hs] at h
      obtain ⟨s', hm, h'⟩ := ih h
      exact ⟨s', List.mem_cons_of_mem _ hm, h'⟩
    | ok tup =>
      obtain ⟨o, c, r⟩ := tup
      rw [hs] at h
      rcases List.mem_cons.mp h with rfl | ht
      · exact ⟨s, List.mem_cons_self .., hs⟩
      · obtain ⟨s', hm, h'⟩ := ih ht
        exact ⟨s', List.mem_cons_of_mem _ hm, h'⟩

/-- If every strategy raises, no evaluation is collected. -/
theorem collectEvals_eq_nil {strats : List Strategy} {ctx : DecisionContext}
    (h : ∀ s ∈ strats, ∃ er, s.evaluate ctx = .error er) :
    collectEvals strats ctx = [] := by
  induction strats with
  | nil => rfl
  | cons s rest ih =>
    obtain ⟨er, her⟩ := h s (List.mem_cons_self ..)
    simp only [collectEvals]
    rw [her]
    exact ih (fun s' hs' => h s' (List.mem_cons_of_mem _ hs'))

/-- `_predict_outcome` never raises `ValueError` (`invalidInput`). -/
theorem predict_outcome_ne_invalid (sel : Option Opt) :
    predict_outcome sel ≠ .error .invalidInput := by
  cases sel with
  | none => simp [predict_outcome]
  | some o =>
    simp only [predict_outcome]
    cases hv : valGt ((dictGet o "reliability_score").getD (.num (0.8 : ℚ))) (0.8 : ℚ) with
    | error e => simp
    | ok b => simp

/-- `_predict_outcome` succeeds on any real option whose
`reliability_score`, when present, is not a string. -/
theorem predict_outcome_ok_of {o : Opt}
    (h : ∀ str, dictGet o "reliability_score" ≠ some (.str str)) :
    ∃ out, predict_outcome (some o) = .ok out := by
  simp only [predict_outcome]
  cases hd : dictGet o "reliability_score" with
  | none => exact ⟨_, rfl⟩
  | some v =>
    cases v with
    | num q => exact ⟨_, rfl⟩
    | bool b => exact ⟨_, rfl⟩
    | str s => exact absurd hd (h s)

/-- Any confidence the weighted-scoring normalization returns lies in
`[0, 1]` (it is either the 0.5 default or clamped into `[0.1, 0.95]`). -/
theorem wsConfidence_bounds {scores : List (Opt × ℚ)} {c : ℚ}
    (h : wsConfidence scores = .ok c) : 0 ≤ c ∧ c ≤ 1 := by
  simp only [wsConfidence] at h
  split at h
  · split at h
    · exact absurd h (by simp)
    · simp only [Except.ok.injEq] at h
      subst h
      constructor
      · exact le_min (by norm_num)
          (le_trans (by norm_num : (0 : ℚ) ≤ 0.1) (le_max_left _ _))
      · exact le_trans (min_le_left _ _) (by norm_num)
  · simp only [Except.ok.injEq] at h
    subst h
    norm_num

/-- Decomposition of a successful `WeightedScoringStrategy.evaluate`. -/
theorem ws_evaluate_ok_elim {w : List (String × ℚ)} {ctx : DecisionContext}
    {b : Option Opt} {c : ℚ} {s : String}
    (h : WeightedScoringStrategy.evaluate w ctx = .ok (b, c, s)) :
    ∃ scores, scoresList w ctx.constraints ctx.available_options = .ok scores ∧
      wsConfidence scores = .ok c ∧ b = (scanBest scores none).map Prod.fst := by
  simp only [WeightedScoringStrategy.evaluate] at h
  split at h
  · exact absurd h (by simp)
  next scores hs =>
    split at h
    · exact absurd h (by simp)
    next conf hc =>
      simp only [Except.ok.injEq, Prod.mk.injEq] at h
      obtain ⟨h1, h2, -⟩ := h
      exact ⟨scores, hs, h2 ▸ hc, h1.symm⟩

/-- Any confidence a successful `WeightedScoringStrategy.evaluate` returns
lies in `[0, 1]`. -/
theorem ws_evaluate_conf_bounds {w : List (String × ℚ)} {ctx : DecisionContext}
    {b : Option Opt} {c : ℚ} {s : String}
    (h : WeightedScoringStrategy.evaluate w ctx = .ok (b, c, s)) : 0 ≤ c ∧ c ≤ 1 := by
  obtain ⟨scores, -, hc, -⟩ := ws_evaluate_ok_elim h
  exact wsConfidence_bounds hc

/-- The first two entries of the descending sort are the maximum of the
list and the maximum of the list with one copy of the maximum removed. -/
theorem sortScores_two_max {l : List ℚ} {a b : ℚ} {t : List ℚ}
    (h : sortScores l = a :: b :: t) :
    l.maximum = (a : WithBot ℚ) ∧ (l.erase a).maximum = (b : WithBot ℚ) := by
  have hperm : List.Perm (a :: b :: t) l := h ▸ List.perm_insertionSort qGe l
  have hsorted : List.Sorted qGe (a :: b :: t) := h ▸ List.sorted_insertionSort qGe l
  constructor
  · rw [List.maximum_eq_coe_iff]
    refine ⟨hperm.mem_iff.mp (List.mem_cons_self ..), ?_⟩
    intro x hx
    rcases List.mem_cons.mp (hperm.symm.mem_iff.mp hx) with rfl | hx'
    · exact le_refl x
    · exact List.rel_of_sorted_cons hsorted x hx'
  · have herase : List.Perm (l.erase a) (b :: t) := by
      have h1 : List.Perm ((a :: b :: t).erase a) (l.erase a) := hperm.erase a
      rw [List.erase_cons_head] at h1
      exact h1.symm
    rw [List.maximum_eq_coe_iff]
    refine ⟨herase.symm.mem_iff.mp (List.mem_cons_self ..), ?_⟩
    intro x hx
    rcases List.mem_cons.mp (herase.mem_iff.mp hx) with rfl | hx'
    · exact le_refl x
    · exact List.rel_of_sorted_cons hsorted.of_cons x hx'

/-- Unfolding of `make_decision` past the non-empty guard. -/
theorem make_decision_eq (e : DecisionEngine) (ctx : DecisionContext)
    (hne : ctx.available_options.isEmpty = false) :
    make_decision e ctx =
      (match predict_outcome (selectionOf ctx (List.insertionSort evalGe
          (collectEvals (strategiesFor e ctx.decision_type) ctx))).1 with
       | .error er => .error er
       | .ok outcome =>
         .ok (mkResult (selectionOf ctx (List.insertionSort evalGe
                (collectEvals (strategiesFor e ctx.decision_type) ctx)))
              (List.insertionSort evalGe (collectEvals (strategiesFor e ctx.decision_type) ctx))
              outcome,
              ⟨e.strategies,
               store_decision (getMaxHistory e) e.decision_history
                 (mkResult (selectionOf ctx (List.insertionSort evalGe
                    (collectEvals (strategiesFor e ctx.decision_type) ctx)))
                  (List.insertionSort evalGe
                    (collectEvals (strategiesFor e ctx.decision_type) ctx)) outcome),
               e.config_max_history, e.fallback_strategy⟩)) := by
  simp only [make_decision, hne, Bool.false_eq_true, if_false]

/-- Everything a successful `make_decision` call determines. -/
theorem make_decision_ok {e : DecisionEngine} {ctx : DecisionContext}
    {r : DecisionResult} {e' : DecisionEngine}
    (h : make_decision e ctx = .ok (r, e')) :
    ctx.available_options ≠ [] ∧
    ∃ outcome,
      predict_outcome (selectionOf ctx (List.insertionSort evalGe
        (collectEvals (strategiesFor e ctx.decision_type) ctx))).1 = .ok outcome ∧
      r = mkResult (selectionOf ctx (List.insertionSort evalGe
            (collectEvals (strategiesFor e ctx.decision_type) ctx)))
          (List.insertionSort evalGe (collectEvals (strategiesFor e ctx.decision_type) ctx))
          outcome ∧
      e' = ⟨e.strategies, store_decision (getMaxHistory e) e.decision_history r,
            e.config_max_history, e.fallback_strategy⟩ := by
  have hne : ctx.available_options.isEmpty = false := by
    cases hemp : ctx.available_options.isEmpty with
    | false => rfl
    | true =>
      rw [make_decision, if_pos hemp] at h
      exact absurd h (by simp)
  rw [make_decision_eq e ctx hne] at h
  refine ⟨by simpa using hne, ?_⟩
  cases hp : predict_outcome (selectionOf ctx (List.insertionSort evalGe
      (collectEvals (strategiesFor e ctx.decision_type) ctx))).1 with
  | error er => rw [hp] at h; exact absurd h (by simp)
  | ok outcome =>
    rw [hp] at h
    simp only [Except.ok.injEq, Prod.mk.injEq] at h
    obtain ⟨hr, he'⟩ := h
    exact ⟨outcome, rfl, hr.symm, by rw [← he', ← hr]⟩

/-- A successful outcome prediction makes `make_decision` succeed. -/
theorem make_decision_ok_of_predict {e : DecisionEngine} {ctx : DecisionContext}
    {outcome : List (String × Value)}
    (hne : ctx.available_options.isEmpty = false)
    (hp : predict_outcome (selectionOf ctx (List.insertionSort evalGe
        (collectEvals (strategiesFor e ctx.decision_type) ctx))).1 = .ok outcome) :
    ∃ p, make_decision e ctx = .ok p := by
  rw [make_decision_eq e ctx hne, hp]
  exact ⟨_, rfl⟩

/-- The assembled result's selected option is the selection's. -/
theorem mkResult_selected (sel : Option Opt × ℚ × String × String)
    (sortedEvals : List Evaluation) (outcome : List (String × Value)) :
    (mkResult sel sortedEvals outcome).selected_option = sel.1 := rfl

/-- The assembled result's confidence is the selection's. -/
theorem mkResult_confidence (sel : Option Opt × ℚ × String × String)
    (sortedEvals : List Evaluation) (outcome : List (String × Value)) :
    (mkResult sel sortedEvals outcome).confidence = sel.2.1 := rfl

/-- The assembled result's reasoning is the selection's with the strategy
name appended. -/
theorem mkResult_reasoning (sel : Option Opt × ℚ × String × String)
    (sortedEvals : List Evaluation) (outcome : List (String × Value)) :
    (mkResult sel sortedEvals outcome).reasoning =
      sel.2.2.1 ++ " (via " ++ sel.2.2.2 ++ ")" := rfl

/-- Options with identical lookups on every weighted criterion have the
same raw score. -/
theorem rawScore_congr {o1 o2 : Opt} :
    ∀ {w : List (String × ℚ)}, (∀ p ∈ w, dictGet o1 p.1 = dictGet o2 p.1) →
      rawScore w o1 = rawScore w o2 := by
  intro w
  induction w with
  | nil => intro _; rfl
  | cons p rest ih =>
    obtain ⟨c, wt⟩ := p
    intro h
    simp only [rawScore, contrib]
    rw [show dictGet o1 c = dictGet o2 c from h (c, wt) (List.mem_cons_self ..)]
    rw [ih (fun q hq => h q (List.mem_cons_of_mem _ hq))]

/-- Two options that agree outside one key carried by both as numbers have
raw scores differing by exactly that key's weighted value difference. -/
theorem rawScore_sub {k : String} {wk v1 v2 : ℚ} {o1 o2 : Opt} :
    ∀ {w : List (String × ℚ)}, (k, wk) ∈ w → (w.map Prod.fst).Nodup →
      dictGet o1 k = some (.num v1) → dictGet o2 k = some (.num v2) →
      (∀ key, key ≠ k → dictGet o1 key = dictGet o2 key) →
      rawScore w o1 = rawScore w o2 + wk * (v1 - v2) := by
  intro w
  induction w with
  | nil => intro hm; simp at hm
  | cons p rest ih =>
    obtain ⟨c, wc⟩ := p
    intro hm hnd h1 h2 same
    by_cases hck : c = k
    · subst hck
      have hknotin : c ∉ rest.map Prod.fst := by
        simpa using (List.nodup_cons.mp hnd).1
      have hwk : wc = wk := by
        rcases List.mem_cons.mp hm with he | hm'
        · exact ((Prod.ext_iff.mp he).2).symm
        · exact absurd (List.mem_map_of_mem Prod.fst hm') (by simpa using hknotin)
      have htail : rawScore rest o1 = rawScore rest o2 := by
        refine rawScore_congr ?_
        intro q hq
        refine same q.1 ?_
        intro hqk
        exact hknotin (hqk ▸ List.mem_map_of_mem Prod.fst hq)
      simp only [rawScore, contrib, h1, h2, htail, hwk]
      ring
    · have hm' : (k, wk) ∈ rest := by
        rcases List.mem_cons.mp hm with he | hm'
        · exact absurd ((Prod.ext_iff.mp he).1).symm hck
        · exact hm'
      have hhead : dictGet o1 c = dictGet o2 c := same c hck
      simp only [rawScore, contrib, hhead]
      rw [ih hm' (List.nodup_cons.mp hnd).2 h1 h2 same]
      ring

/-- Weighted scoring of a two-option context where the first option scores
strictly higher with a nonzero score: the first option is selected, with the
gap-over-top confidence. -/
theorem ws_evaluate_pair_first {w : List (String × ℚ)} {cs : List (String × ConstraintSpec)}
    (t : DecisionType) (st pf : List (String × Value)) (hd : List Opt)
    {o1 o2 : Opt} {s1 s2 : ℚ}
    (hc1 : calculate_score w cs o1 = .ok s1) (hc2 : calculate_score w cs o2 = .ok s2)
    (hlt : s2 < s1) (hnz : s1 ≠ 0) :
    WeightedScoringStrategy.evaluate w ⟨t, st, [o1, o2], cs, pf, hd⟩ =
      .ok (some o1, min (0.95 : ℚ) (max (0.1 : ℚ) ((s1 - s2) / s1)),
        "Selected based on weighted scoring (score: " ++ toString s1 ++ ")") := by
  have hsl : scoresList w cs [o1, o2] = .ok [(o1, s1), (o2, s2)] := by
    simp [scoresList, hc1, hc2]
  have hscan : scanBest [(o1, s1), (o2, s2)] none = some (o1, s1) := by
    simp only [scanBest]
    rw [if_neg (not_lt.mpr (le_of_lt hlt))]
  have hsort : sortScores [s1, s2] = [s1, s2] := by
    simp only [sortScores, List.insertionSort, List.orderedInsert]
    exact if_pos (le_of_lt hlt)
  have hconf : wsConfidence [(o1, s1), (o2, s2)] =
      .ok (min (0.95 : ℚ) (max (0.1 : ℚ) ((s1 - s2) / s1))) := by
    simp only [wsConfidence, List.length_cons, List.length_nil]
    rw [if_pos (by norm_num)]
    simp only [List.map_cons, List.map_nil, hsort, List.headD_cons, List.drop_succ_cons,
      List.drop_zero]
    rw [if_neg hnz]
  simp only [WeightedScoringStrategy.evaluate, hsl, hscan, hconf, fmtScore]
  rfl

/-- Weighted scoring of a two-option context where the second option scores
strictly higher with a nonzero score: the second option is selected, with
the gap-over-top confidence. -/
theorem ws_evaluate_pair_second {w : List (String × ℚ)} {cs : List (String × ConstraintSpec)}
    (t : DecisionType) (st pf : List (String × Value)) (hd : List Opt)
    {o1 o2 : Opt} {s1 s2 : ℚ}
    (hc1 : calculate_score w cs o1 = .ok s1) (hc2 : calculate_score w cs o2 = .ok s2)
    (hlt : s2 < s1) (hnz : s1 ≠ 0) :
    WeightedScoringStrategy.evaluate w ⟨t, st, [o2, o1], cs, pf, hd⟩ =
      .ok (some o1, min (0.95 : ℚ) (max (0.1 : ℚ) ((s1 - s2) / s1)),
        "Selected based on weighted scoring (score: " ++ toString s1 ++ ")") := by
  have hsl : scoresList w cs [o2, o1] = .ok [(o2, s2), (o1, s1)] := by
    simp [scoresList, hc1, hc2]
  have hscan : scanBest [(o2, s2), (o1, s1)] none = some (o1, s1) := by
    simp only [scanBest]
    rw [if_pos hlt]
  have hsort : sortScores [s2, s1] = [s1, s2] := by
    simp only [sortScores, List.insertionSort, List.orderedInsert]
    exact if_neg (not_le.mpr hlt)
  have hconf : wsConfidence [(o2, s2), (o1, s1)] =
      .ok (min (0.95 : ℚ) (max (0.1 : ℚ) ((s1 - s2) / s1))) := by
    simp only [wsConfidence, List.length_cons, List.length_nil]
    rw [if_pos (by norm_num)]
    simp only [List.map_cons, List.map_nil, hsort, List.headD_cons, List.drop_succ_cons,
      List.drop_zero]
    rw [if_neg hnz]
  simp only [WeightedScoringStrategy.evaluate, hsl, hscan, hconf, fmtScore]
  rfl

/-! ### History bounding -/

/-- With a positive `max_history_size`, one store keeps the history within
the bound (regardless of how long it already was). -/
theorem store_decision_length {m : Int} (hm : 1 ≤ m) (h : List DecisionResult)
    (r : DecisionResult) : ((store_decision m h r).length : Int) ≤ m := by
  simp only [store_decision, pySliceFrom]
  split
  next hlt =>
    rw [if_neg (by omega : ¬ (0 : Int) ≤ -m)]
    have hmax : max 0 (((h ++ [r]).length : Int) + -m) = ((h ++ [r]).length : Int) - m := by
      rw [max_eq_right] <;> omega
    rw [hmax, List.length_drop]
    omega
  next hge =>
    omega

/-- Every store keeps a suffix of the appended history: overflow drops only
the oldest entries. -/
theorem store_decision_suffix (m : Int) (h : List DecisionResult) (r : DecisionResult) :
    store_decision m h r <:+ h ++ [r] := by
  simp only [store_decision, pySliceFrom]
  split
  · split
    · exact List.drop_suffix _ _
    · exact List.drop_suffix _ _
  · exact List.suffix_refl _

/-- Any run of `make_decision` calls keeps the history within a positive
configured bound. -/
theorem run_decisions_length {m : Int} (hm : 1 ≤ m) :
    ∀ (ctxs : List DecisionContext) (e : DecisionEngine),
      getMaxHistory e = m → (e.decision_history.length : Int) ≤ m →
      ((run_decisions e ctxs).decision_history.length : Int) ≤ m := by
  intro ctxs
  induction ctxs with
  | nil => intro e _ hlen; exact hlen
  | cons c cs ih =>
    intro e hcfg hlen
    simp only [run_decisions]
    cases hmd : make_decision e c with
    | error er => exact ih e hcfg hlen
    | ok p =>
      obtain ⟨r, e'⟩ := p
      obtain ⟨-, outcome, -, -, he'⟩ := make_decision_ok hmd
      subst he'
      refine ih _ hcfg ?_
      show ((store_decision (getMaxHistory e) e.decision_history r).length : Int) ≤ m
      rw [hcfg]
      exact store_decision_length hm _ _

/-! ### Claim theorems -/

/-- A strategy that succeeds contributes its evaluation, in order. -/
theorem collectEvals_cons_ok {s : Strategy} {rest : List Strategy} {ctx : DecisionContext}
    {o : Option Opt} {c : ℚ} {rs : String} (h : s.evaluate ctx = .ok (o, c, rs)) :
    collectEvals (s :: rest) ctx = ⟨o, c, rs, s.name⟩ :: collectEvals rest ctx := by
  simp only [collectEvals, h]

/-- C5: on the spec's regression scenario (options
`{performance: 0.9, cost: 10, reliability: 0.95}` and
`{performance: 0.5, cost: 1, reliability: 0.99}`, no constraints, a category
with no registered strategies so the fallback weights
performance +0.4, cost −0.3, reliability +0.3 apply), `make_decision`
selects the second option, whose score 0.197 exceeds the first's −2.355. -/
theorem C5_regression_scenario :
    (∃ r e', make_decision defaultEngine ctx5 = .ok (r, e') ∧
      r.selected_option = some opt5b) ∧
    calculate_score fallbackWeights ctx5.constraints opt5b = .ok (0.197 : ℚ) ∧
    calculate_score fallbackWeights ctx5.constraints opt5a = .ok (-2.355 : ℚ) ∧
    (-2.355 : ℚ) < (0.197 : ℚ) := by
  have hc1 : calculate_score fallbackWeights [] opt5b = .ok (0.197 : ℚ) := by
    simp [calculate_score, applyConstraints, rawScore, contrib, dictGet, fallbackWeights,
      opt5b] <;> norm_num
  have hc2 : calculate_score fallbackWeights [] opt5a = .ok (-2.355 : ℚ) := by
    simp [calculate_score, applyConstraints, rawScore, contrib, dictGet, fallbackWeights,
      opt5a] <;> norm_num
  have hlt : (-2.355 : ℚ) < (0.197 : ℚ) := by norm_num
  have heval : (weightedScoringStrategy fallbackWeights).evaluate ctx5 =
      .ok (some opt5b,
        min (0.95 : ℚ) (max (0.1 : ℚ) (((0.197 : ℚ) - (-2.355 : ℚ)) / (0.197 : ℚ))),
        "Selected based on weighted scoring (score: " ++ toString (0.197 : ℚ) ++ ")") :=
    ws_evaluate_pair_second .optimization [] [] [] hc1 hc2 hlt (by norm_num)
  have hcoll : collectEvals (strategiesFor defaultEngine ctx5.decision_type) ctx5 =
      [⟨some opt5b,
        min (0.95 : ℚ) (max (0.1 : ℚ) (((0.197 : ℚ) - (-2.355 : ℚ)) / (0.197 : ℚ))),
        "Selected based on weighted scoring (score: " ++ toString (0.197 : ℚ) ++ ")",
        "weighted_scoring"⟩] := by
    rw [show strategiesFor defaultEngine ctx5.decision_type =
      [weightedScoringStrategy fallbackWeights] from rfl]
    rw [collectEvals_cons_ok heval]
    rfl
  have hL : List.insertionSort evalGe
      (collectEvals (strategiesFor defaultEngine ctx5.decision_type) ctx5) =
      [⟨some opt5b,
        min (0.95 : ℚ) (max (0.1 : ℚ) (((0.197 : ℚ) - (-2.355 : ℚ)) / (0.197 : ℚ))),
        "Selected based on weighted scoring (score: " ++ toString (0.197 : ℚ) ++ ")",
        "weighted_scoring"⟩] := by
    rw [hcoll]
    rfl
  obtain ⟨out, hout⟩ : ∃ out, predict_outcome (selectionOf ctx5
      [(⟨some opt5b,
        min (0.95 : ℚ) (max (0.1 : ℚ) (((0.197 : ℚ) - (-2.355 : ℚ)) / (0.197 : ℚ))),
        "Selected based on weighted scoring (score: " ++ toString (0.197 : ℚ) ++ ")",
        "weighted_scoring"⟩ : Evaluation)]).1 = .ok out := by
    refine predict_outcome_ok_of ?_
    intro str h
    rw [show dictGet opt5b "reliability_score" = none from rfl] at h
    exact Option.noConfusion h
  have hmd := make_decision_eq defaultEngine ctx5 rfl
  rw [hL, hout] at hmd
  exact ⟨⟨_, _, hmd, rfl⟩, hc1, hc2, hlt⟩

/-- C9: the weighted-scoring strategy applies the 1000-point constraint
penalty only when the constrained attribute is a key of the option — a
constraint on a missing key never changes the score, whatever its bounds. -/
theorem C9_missing_key_no_penalty (w : List (String × ℚ)) (cname : String)
    (cspec : ConstraintSpec) (cs : List (String × ConstraintSpec)) (o : Opt)
    (hnone : dictGet o cname = none) :
    calculate_score w ((cname, cspec) :: cs) o = calculate_score w cs o := by
  simp only [calculate_score, applyConstraints, hnone]

/-- Witness for `C9_missing_key_no_penalty` at a concrete option lacking the
constrained key `cost`. -/
theorem C9_missing_key_no_penalty_witness :
    dictGet [("x", Value.num 3)] "cost" = none ∧
    calculate_score [("x", (1 : ℚ))] [("cost", ConstraintSpec.range none (some 5) none)]
        [("x", Value.num 3)] =
      calculate_score [("x", (1 : ℚ))] [] [("x", Value.num 3)] :=
  ⟨rfl, C9_missing_key_no_penalty [("x", (1 : ℚ))] "cost"
    (ConstraintSpec.range none (some 5) none) [] [("x", Value.num 3)] rfl⟩

/-- C10: with an empty weight table both options of `ctx10` score exactly 0,
the confidence normalization divides by the zero top score and the strategy
raises `ZeroDivisionError`; `make_decision` absorbs it and, no other
strategy being registered for the category, returns the degraded fallback
(first option, confidence 0.1). -/
theorem C10_zero_top_score_division :
    WeightedScoringStrategy.evaluate [] ctx10 = .error .zeroDivision ∧
    scoresList [] ctx10.constraints ctx10.available_options =
      .ok [([("a", Value.num 1)], 0), ([("b", Value.num 2)], 0)] ∧
    mdSelOf engine10 ctx10 = some (some [("a", Value.num 1)]) ∧
    mdConfOf engine10 ctx10 = some (0.1 : ℚ) :=
  ⟨rfl, rfl, rfl, rfl⟩

/-- C3 counterexample: with `max_history_size = 0` (an integer value the
claim quantifies over), Python's `history[-0:]` is the whole list, so one
`make_decision` call leaves 1 > 0 entries in the history. -/
theorem C3_counterexample :
    getMaxHistory engine3 = 0 ∧ mdHistLenOf engine3 ctxA = 1 :=
  ⟨rfl, rfl⟩

/-- C3 (amended): for every positive `max_history_size`, after any number of
`make_decision` calls the history holds at most `max_history_size` entries,
and each store keeps a suffix of the appended history (the oldest entries
are the ones dropped) — for `max_history_size = 0` the bound fails, see
`C3_counterexample`. -/
theorem C3_bounded_history (m : Int) (hm : 1 ≤ m) :
    (∀ (e : DecisionEngine) (ctxs : List DecisionContext),
        getMaxHistory e = m → (e.decision_history.length : Int) ≤ m →
        ((run_decisions e ctxs).decision_history.length : Int) ≤ m) ∧
    (∀ (h : List DecisionResult) (r : DecisionResult),
        store_decision m h r <:+ h ++ [r]) :=
  ⟨fun e ctxs hcfg hlen => run_decisions_length hm ctxs e hcfg hlen,
   fun h r => store_decision_suffix m h r⟩

/-- Witness for `C3_bounded_history`: three calls against a bound of 2. -/
theorem C3_bounded_history_witness :
    ((run_decisions engineW3 [ctxA, ctxA, ctxA]).decision_history.length : Int) ≤ 2 :=
  (C3_bounded_history 2 (by norm_num)).1 engineW3 [ctxA, ctxA, ctxA] rfl (by decide)

/-- C7 counterexample: when every strategy fails, the reasoning recorded on
the returned result is the fallback text with the `" (via fallback)"` suffix
appended (and an ASCII hyphen), not the bare claimed string. -/
theorem C7_counterexample :
    r7.reasoning = "Fallback selection - no strategies succeeded (via fallback)" ∧
    r7.reasoning ≠ "Fallback selection — no strategies succeeded" :=
  ⟨rfl, by decide⟩

/-- C7 (amended): if every strategy registered for the context's type
raises, any `DecisionResult` that `make_decision` returns selects
`available_options[0]` with confidence 0.1 and reasoning
`"Fallback selection - no strategies succeeded (via fallback)"`. -/
theorem C7_fallback_result (e : DecisionEngine) (ctx : DecisionContext)
    (r : DecisionResult) (e' : DecisionEngine)
    (hfail : ∀ s ∈ strategiesFor e ctx.decision_type, ∃ er, s.evaluate ctx = .error er)
    (h : make_decision e ctx = .ok (r, e')) :
    r.selected_option = some (ctx.available_options.headD []) ∧
    r.confidence = (0.1 : ℚ) ∧
    r.reasoning = "Fallback selection - no strategies succeeded (via fallback)" := by
  obtain ⟨hne, outcome, hp, hr, -⟩ := make_decision_ok h
  rw [collectEvals_eq_nil hfail] at hr
  simp only [List.insertionSort] at hr
  subst hr
  exact ⟨rfl, rfl, rfl⟩

/-- Witness for `C7_fallback_result` on the engine whose only `optimization`
strategy always raises. -/
theorem C7_fallback_result_witness :
    r7.selected_option = some (ctxA.available_options.headD []) ∧
    r7.confidence = (0.1 : ℚ) ∧
    r7.reasoning = "Fallback selection - no strategies succeeded (via fallback)" :=
  C7_fallback_result engine7 ctxA r7 e7res
    (by
      intro s hs
      rw [show strategiesFor engine7 ctxA.decision_type = [failStrategy] from rfl] at hs
      rw [List.mem_singleton] at hs
      subst hs
      exact ⟨.typeError, rfl⟩)
    rfl

/-- C1 counterexample: a strategy registered via `add_strategy` may return
an option foreign to the context, and `make_decision` selects it unchecked,
so the selected option is not a member of `available_options`. -/
theorem C1_counterexample :
    mdSelOf engine1 ctxA = some (some rogueOpt) ∧ rogueOpt ∉ ctxA.available_options :=
  ⟨rfl, by decide⟩

/-- C1 (amended): whenever every strategy registered for the context's type
only returns members of `available_options` (as the built-in strategies do),
any `DecisionResult` returned by `make_decision` on a non-empty option list
has `selected_option` a member of `available_options`; an arbitrary
registered strategy can break this, see `C1_counterexample`. -/
theorem C1_member_selection (e : DecisionEngine) (ctx : DecisionContext)
    (r : DecisionResult) (e' : DecisionEngine)
    (hmem : ∀ s ∈ strategiesFor e ctx.decision_type, ∀ o c rs,
        s.evaluate ctx = .ok (o, c, rs) → ∃ oo ∈ ctx.available_options, o = some oo)
    (h : make_decision e ctx = .ok (r, e')) :
    ∃ oo ∈ ctx.available_options, r.selected_option = some oo := by
  obtain ⟨hne, outcome, hp, hr, -⟩ := make_decision_ok h
  subst hr
  rw [mkResult_selected]
  rcases hLc : List.insertionSort evalGe (collectEvals (strategiesFor e ctx.decision_type) ctx)
    with - | ⟨ev, rest⟩
  · cases hemp : ctx.available_options with
    | nil => exact absurd hemp hne
    | cons a l => exact ⟨a, List.mem_cons_self .., by simp [selectionOf, hemp]⟩
  · have hev : ev ∈ collectEvals (strategiesFor e ctx.decision_type) ctx := by
      have hmemL : ev ∈ List.insertionSort evalGe
          (collectEvals (strategiesFor e ctx.decision_type) ctx) := by
        rw [hLc]; exact List.mem_cons_self ..
      exact (List.mem_insertionSort evalGe).mp hmemL
    obtain ⟨s, hs, hok⟩ := mem_collectEvals hev
    obtain ⟨oo, hoo, heq⟩ := hmem s hs ev.option ev.confidence ev.reasoning hok
    exact ⟨oo, hoo, by simp [selectionOf, heq]⟩

/-- Witness for `C1_member_selection`: on the all-failing engine the
fallback path selects the head of the option list, a member. -/
theorem C1_member_selection_witness :
    ∃ oo ∈ ctxA.available_options, r7.selected_option = some oo :=
  C1_member_selection engine7 ctxA r7 e7res
    (by
      intro s hs o c rs hok
      rw [show strategiesFor engine7 ctxA.decision_type = [failStrategy] from rfl] at hs
      rw [List.mem_singleton] at hs
      subst hs
      simp [failStrategy] at hok)
    rfl

/-- C2 counterexample: with the non-empty option list of `ctx2` (whose only
option has a string `reliability_score`), `make_decision` raises a
`TypeError` from `_predict_outcome`'s `> 0.8` comparison — so with a
non-empty list it can still raise. -/
theorem C2_counterexample :
    mdErrOf defaultEngine ctx2 = some .typeError ∧ ctx2.available_options ≠ [] :=
  ⟨rfl, by decide⟩

/-- C2 (amended): `make_decision` raises `InvalidInput` iff
`available_options` is empty (exceptions inside a strategy's `evaluate` are
absorbed — in this model they cannot escape), but with a non-empty list it
can still raise a `TypeError` from the outcome prediction; when every
strategy only returns member options and no option carries a string
`reliability_score`, it returns a `DecisionResult`. -/
theorem C2_error_behaviour :
    (∀ (e : DecisionEngine) (ctx : DecisionContext),
        make_decision e ctx = .error .invalidInput ↔ ctx.available_options = []) ∧
    (∀ (e : DecisionEngine) (ctx : DecisionContext),
        ctx.available_options ≠ [] →
        (∀ s ∈ strategiesFor e ctx.decision_type, ∀ o c rs,
            s.evaluate ctx = .ok (o, c, rs) → ∃ oo ∈ ctx.available_options, o = some oo) →
        (∀ o ∈ ctx.available_options, ∀ str, dictGet o "reliability_score" ≠ some (.str str)) →
        ∃ p, make_decision e ctx = .ok p) := by
  constructor
  · intro e ctx
    constructor
    · intro h
      by_contra hne
      have hne' : ctx.available_options.isEmpty = false := by
        cases hemp : ctx.available_options with
        | nil => exact absurd hemp hne
        | cons a l => rfl
      rw [make_decision_eq e ctx hne'] at h
      cases hp : predict_outcome (selectionOf ctx (List.insertionSort evalGe
          (collectEvals (strategiesFor e ctx.decision_type) ctx))).1 with
      | error er =>
        rw [hp] at h
        simp only [Except.error.injEq] at h
        exact absurd (h ▸ hp) (predict_outcome_ne_invalid _)
      | ok outcome =>
        rw [hp] at h
        exact absurd h (by simp)
    · intro h
      rw [make_decision, if_pos (by simp [h])]
  · intro e ctx hne hmem hrel
    have hne' : ctx.available_options.isEmpty = false := by
      cases hemp : ctx.available_options with
      | nil => exact absurd hemp hne
      | cons a l => rfl
    have hsel : ∃ oo ∈ ctx.available_options,
        (selectionOf ctx (List.insertionSort evalGe
          (collectEvals (strategiesFor e ctx.decision_type) ctx))).1 = some oo := by
      rcases hLc : List.insertionSort evalGe (collectEvals (strategiesFor e ctx.decision_type) ctx)
        with - | ⟨ev, rest⟩
      · cases hemp : ctx.available_options with
        | nil => exact absurd hemp hne
        | cons a l => exact ⟨a, List.mem_cons_self .., by simp [selectionOf, hemp]⟩
      · have hev : ev ∈ collectEvals (strategiesFor e ctx.decision_type) ctx := by
          have hmemL : ev ∈ List.insertionSort evalGe
              (collectEvals (strategiesFor e ctx.decision_type) ctx) := by
            rw [hLc]; exact List.mem_cons_self ..
          exact (List.mem_insertionSort evalGe).mp hmemL
        obtain ⟨s, hs, hok⟩ := mem_collectEvals hev
        obtain ⟨oo, hoo, heq⟩ := hmem s hs ev.option ev.confidence ev.reasoning hok
        exact ⟨oo, hoo, by simp [selectionOf, heq]⟩
    obtain ⟨oo, hoo, hsel1⟩ := hsel
    obtain ⟨out, hout⟩ := predict_outcome_ok_of (hrel oo hoo)
    exact make_decision_ok_of_predict hne' (by rw [hsel1]; exact hout)

/-- Weighted scoring of a two-option context where the first option scores
exactly 0 and the second strictly less: the confidence normalization
divides by the zero top score and raises `ZeroDivisionError`. -/
theorem ws_evaluate_pair_zero {w : List (String × ℚ)} {cs : List (String × ConstraintSpec)}
    (t : DecisionType) (st pf : List (String × Value)) (hd : List Opt)
    {o1 o2 : Opt} {s2 : ℚ}
    (hc1 : calculate_score w cs o1 = .ok 0) (hc2 : calculate_score w cs o2 = .ok s2)
    (hneg : s2 < 0) :
    WeightedScoringStrategy.evaluate w ⟨t, st, [o1, o2], cs, pf, hd⟩ =
      .error .zeroDivision := by
  have hsl : scoresList w cs [o1, o2] = .ok [(o1, 0), (o2, s2)] := by
    simp [scoresList, hc1, hc2]
  have hsort : sortScores [0, s2] = [0, s2] := by
    simp only [sortScores, List.insertionSort, List.orderedInsert]
    exact if_pos (le_of_lt hneg)
  have hconf : wsConfidence [(o1, 0), (o2, s2)] = .error .zeroDivision := by
    simp only [wsConfidence, List.length_cons, List.length_nil]
    rw [if_pos (by norm_num)]
    simp only [List.map_cons, List.map_nil, hsort, List.headD_cons]
    simp
  simp only [WeightedScoringStrategy.evaluate, hsl, hconf]

/-- C8 counterexample: `o8hi` dominates `o8lo` in the positively weighted
attribute `x` (all else equal, no constraints), yet nothing is selected —
`evaluate` raises `ZeroDivisionError` because the higher option's total
score is exactly 0. -/
theorem C8_counterexample :
    WeightedScoringStrategy.evaluate [("x", (1 : ℚ)), ("y", (1 : ℚ))] ctx8 =
      .error .zeroDivision ∧
    dictGet o8hi "x" = some (Value.num 1) ∧ dictGet o8lo "x" = some (Value.num 0) ∧
    dictGet o8hi "y" = dictGet o8lo "y" ∧ (0 : ℚ) < 1 := by
  have hc1 : calculate_score [("x", (1 : ℚ)), ("y", (1 : ℚ))] [] o8hi = .ok 0 := by
    simp [calculate_score, applyConstraints, rawScore, contrib, dictGet, o8hi] <;> norm_num
  have hc2 : calculate_score [("x", (1 : ℚ)), ("y", (1 : ℚ))] [] o8lo = .ok (-1 : ℚ) := by
    simp [calculate_score, applyConstraints, rawScore, contrib, dictGet, o8lo] <;> norm_num
  exact ⟨ws_evaluate_pair_zero .optimization [] [] [] hc1 hc2 (by norm_num),
    rfl, rfl, rfl, by norm_num⟩

/-- C8 (amended): for two options identical except in one numeric attribute
with positive weight (no weight key duplicated, no constraint violated by
either), and whose higher raw score is nonzero, the weighted-scoring
strategy selects the option with the higher value, in either list order —
with a zero top score it raises instead, see `C8_counterexample`. -/
theorem C8_monotonicity (w : List (String × ℚ)) (cs : List (String × ConstraintSpec))
    (t : DecisionType) (st pf : List (String × Value)) (hd : List Opt)
    (k : String) (wk v1 v2 : ℚ) (o1 o2 : Opt)
    (hmem : (k, wk) ∈ w) (hpos : 0 < wk) (hnd : (w.map Prod.fst).Nodup)
    (h1 : dictGet o1 k = some (.num v1)) (h2 : dictGet o2 k = some (.num v2))
    (hv : v2 < v1) (same : ∀ key, key ≠ k → dictGet o1 key = dictGet o2 key)
    (noviol1 : countViol o1 cs = .ok 0) (noviol2 : countViol o2 cs = .ok 0)
    (hnz : rawScore w o1 ≠ 0) :
    WeightedScoringStrategy.evaluate w ⟨t, st, [o1, o2], cs, pf, hd⟩ =
      .ok (some o1, min (0.95 : ℚ) (max (0.1 : ℚ)
        ((rawScore w o1 - rawScore w o2) / rawScore w o1)),
        "Selected based on weighted scoring (score: " ++ toString (rawScore w o1) ++ ")") ∧
    WeightedScoringStrategy.evaluate w ⟨t, st, [o2, o1], cs, pf, hd⟩ =
      .ok (some o1, min (0.95 : ℚ) (max (0.1 : ℚ)
        ((rawScore w o1 - rawScore w o2) / rawScore w o1)),
        "Selected based on weighted scoring (score: " ++ toString (rawScore w o1) ++ ")") := by
  have hs1 : calculate_score w cs o1 = .ok (rawScore w o1) := by
    rw [calculate_score, applyConstraints_eq_countViol, noviol1]
    simp [Except.map]
  have hs2 : calculate_score w cs o2 = .ok (rawScore w o2) := by
    rw [calculate_score, applyConstraints_eq_countViol, noviol2]
    simp [Except.map]
  have hraw : rawScore w o1 = rawScore w o2 + wk * (v1 - v2) :=
    rawScore_sub hmem hnd h1 h2 same
  have hlt : rawScore w o2 < rawScore w o1 := by
    have hprod : 0 < wk * (v1 - v2) := mul_pos hpos (sub_pos.mpr hv)
    linarith
  exact ⟨ws_evaluate_pair_first t st pf hd hs1 hs2 hlt hnz,
         ws_evaluate_pair_second t st pf hd hs1 hs2 hlt hnz⟩

/-- Witness for `C8_monotonicity`: weight `x ↦ 1`, options `{x: 2}` and
`{x: 1}`, both list orders select `{x: 2}`. -/
theorem C8_monotonicity_witness :
    WeightedScoringStrategy.evaluate [("x", (1 : ℚ))]
        ⟨.optimization, [], [o8a, o8b], [], [], []⟩ =
      .ok (some o8a, min (0.95 : ℚ) (max (0.1 : ℚ)
        ((rawScore [("x", (1 : ℚ))] o8a - rawScore [("x", (1 : ℚ))] o8b) /
          rawScore [("x", (1 : ℚ))] o8a)),
        "Selected based on weighted scoring (score: " ++
          toString (rawScore [("x", (1 : ℚ))] o8a) ++ ")") ∧
    WeightedScoringStrategy.evaluate [("x", (1 : ℚ))]
        ⟨.optimization, [], [o8b, o8a], [], [], []⟩ =
      .ok (some o8a, min (0.95 : ℚ) (max (0.1 : ℚ)
        ((rawScore [("x", (1 : ℚ))] o8a - rawScore [("x", (1 : ℚ))] o8b) /
          rawScore [("x", (1 : ℚ))] o8a)),
        "Selected based on weighted scoring (score: " ++
          toString (rawScore [("x", (1 : ℚ))] o8a) ++ ")") :=
  C8_monotonicity [("x", (1 : ℚ))] [] .optimization [] [] [] "x" 1 2 1 o8a o8b
    (List.mem_singleton.mpr rfl) (by norm_num) (by decide) rfl rfl (by norm_num)
    (by
      intro key hk
      have hx : ¬ ("x" = key) := fun h => hk h.symm
      simp [o8a, o8b, dictGet, hx])
    rfl rfl
    (by simp [rawScore, contrib, dictGet, o8a] <;> norm_num)

/-- C4 counterexample: the 1000 penalty is finite — option `oA4` violates
the `cost ≤ 5` constraint but its huge unconstrained attribute keeps its
penalized score (4000) above the clean option's (0), so the violator is
selected even though a non-violating option exists. -/
theorem C4_counterexample :
    WeightedScoringStrategy.evaluate [("x", (1 : ℚ))] ctx4 =
      .ok (some oA4, min (0.95 : ℚ) (max (0.1 : ℚ) (((4000 : ℚ) - 0) / 4000)),
        "Selected based on weighted scoring (score: " ++ toString (4000 : ℚ) ++ ")") ∧
    meets_constraint (Value.num 10) (ConstraintSpec.range none (some 5) none) = .ok false ∧
    countViol oB4 cs4 = .ok 0 := by
  have hcA : calculate_score [("x", (1 : ℚ))] cs4 oA4 = .ok (4000 : ℚ) := by
    simp [calculate_score, applyConstraints, rawScore, contrib, dictGet, cs4, oA4,
      meets_constraint, valGt, valLt, Bind.bind, Except.bind, Pure.pure, Except.pure] <;>
      norm_num
  have hcB : calculate_score [("x", (1 : ℚ))] cs4 oB4 = .ok (0 : ℚ) := by
    simp [calculate_score, applyConstraints, rawScore, contrib, dictGet, cs4, oB4,
      meets_constraint, valGt, valLt, Bind.bind, Except.bind, Pure.pure, Except.pure] <;>
      norm_num
  refine ⟨ws_evaluate_pair_first .optimization [] [] [] hcA hcB (by norm_num) (by norm_num),
    ?_, ?_⟩
  · simp [meets_constraint, valGt, valLt, Bind.bind, Except.bind, Pure.pure, Except.pure] <;>
      norm_num
  · simp [countViol, dictGet, cs4, oB4, meets_constraint, valGt, valLt, Bind.bind,
      Except.bind, Pure.pure, Except.pure]

/-- C4 (amended): the weighted-scoring strategy never selects a
constraint-violating option when a non-violating option exists, provided
every pairwise gap of raw (pre-penalty) scores is below the 1000 penalty —
with larger gaps the violator can still win, see `C4_counterexample`. -/
theorem C4_constraint_respect (w : List (String × ℚ)) (ctx : DecisionContext) (best : Opt)
    (conf : ℚ) (rs : String)
    (heval : WeightedScoringStrategy.evaluate w ctx = .ok (some best, conf, rs))
    (hclean : ∃ o ∈ ctx.available_options, countViol o ctx.constraints = .ok 0)
    (hgap : ∀ oA ∈ ctx.available_options, ∀ oB ∈ ctx.available_options,
        rawScore w oA - rawScore w oB < 1000) :
    countViol best ctx.constraints = .ok 0 := by
  obtain ⟨scores, hsl, hcf, hb⟩ := ws_evaluate_ok_elim heval
  obtain ⟨p, hp, hp1⟩ : ∃ p, scanBest scores none = some p ∧ p.1 = best := by
    cases hscan : scanBest scores none with
    | none =>
      rw [hscan] at hb
      exact absurd hb (by simp)
    | some p =>
      rw [hscan] at hb
      exact ⟨p, rfl, by simpa using hb.symm⟩
  obtain ⟨hmem_p, -, hmax⟩ := scanBest_spec scores none p hp
  have hpmem : p ∈ scores := by
    rcases hmem_p with hcontra | hm
    · exact absurd hcontra (by simp)
    · exact hm
  obtain ⟨hbest_mem, hbest_score⟩ := scoresList_ok_mem hsl p hpmem
  rw [calculate_score, applyConstraints_eq_countViol] at hbest_score
  cases hcvv : countViol p.1 ctx.constraints with
  | error e => rw [hcvv] at hbest_score; exact absurd hbest_score (by simp [Except.map])
  | ok n =>
    rw [hcvv] at hbest_score
    simp only [Except.map, Except.ok.injEq] at hbest_score
    rcases Nat.eq_zero_or_pos n with h0 | hposn
    · rw [← hp1]
      rw [hcvv, h0]
    · exfalso
      obtain ⟨oc, hoc_mem, hoc_cv⟩ := hclean
      obtain ⟨sc, hsc_mem, hsc⟩ := scoresList_mem_ok hsl oc hoc_mem
      rw [calculate_score, applyConstraints_eq_countViol, hoc_cv] at hsc
      simp only [Except.map, Nat.cast_zero, mul_zero, sub_zero, Except.ok.injEq] at hsc
      have hle : sc ≤ p.2 := hmax (oc, sc) hsc_mem
      have hgap' := hgap p.1 hbest_mem oc hoc_mem
      have hub : p.2 ≤ rawScore w p.1 - 1000 := by
        rw [← hbest_score]
        have hn1 : (1 : ℚ) ≤ (n : ℚ) := by exact_mod_cast hposn
        nlinarith
      rw [← hsc] at hle
      linarith

/-- Witness for `C4_constraint_respect`: two unconstrained options with a
small score gap; the selected one violates no constraint. -/
theorem C4_constraint_respect_witness :
    countViol [("x", Value.num 2)] ctx4w.constraints = .ok 0 := by
  have hc1 : calculate_score [("x", (1 : ℚ))] ([] : List (String × ConstraintSpec))
      [("x", Value.num 2)] = .ok (2 : ℚ) := by
    simp [calculate_score, applyConstraints, rawScore, contrib, dictGet] <;> norm_num
  have hc2 : calculate_score [("x", (1 : ℚ))] ([] : List (String × ConstraintSpec))
      [("x", Value.num 1)] = .ok (1 : ℚ) := by
    simp [calculate_score, applyConstraints, rawScore, contrib, dictGet] <;> norm_num
  exact C4_constraint_respect [("x", (1 : ℚ))] ctx4w [("x", Value.num 2)] _ _
    (ws_evaluate_pair_first .optimization [] [] [] hc1 hc2 (by norm_num) (by norm_num))
    ⟨[("x", Value.num 2)], List.mem_cons_self .., rfl⟩
    (by
      intro x hx y hy
      rw [show ctx4w.available_options =
        [[("x", Value.num 2)], [("x", Value.num 1)]] from rfl] at hx hy
      rcases List.mem_cons.mp hx with rfl | hx'
      · rcases List.mem_cons.mp hy with rfl | hy'
        · simp [rawScore, contrib, dictGet] <;> norm_num
        · rw [List.mem_singleton] at hy'
          subst hy'
          simp [rawScore, contrib, dictGet] <;> norm_num
      · rw [List.mem_singleton] at hx'
        subst hx'
        rcases List.mem_cons.mp hy with rfl | hy'
        · simp [rawScore, contrib, dictGet] <;> norm_num
        · rw [List.mem_singleton] at hy'
          subst hy'
          simp [rawScore, contrib, dictGet] <;> norm_num)

/-- C6: every `DecisionResult` returned by the engine (as constructed, with
its built-in weighted strategies) has confidence in `[0, 1]`; and the
weighted-scoring confidence equals the gap between the top two scores
divided by the top score, clamped to `[0.1, 0.95]`, defaulting to 0.5 with
fewer than two candidates. -/
theorem C6_confidence_bounds :
    (∀ (ctx : DecisionContext) (r : DecisionResult) (e' : DecisionEngine),
        make_decision defaultEngine ctx = .ok (r, e') →
        0 ≤ r.confidence ∧ r.confidence ≤ 1) ∧
    (∀ (w : List (String × ℚ)) (ctx : DecisionContext) (b : Option Opt) (c : ℚ) (s : String),
        WeightedScoringStrategy.evaluate w ctx = .ok (b, c, s) →
        (ctx.available_options.length < 2 → c = (0.5 : ℚ)) ∧
        (2 ≤ ctx.available_options.length →
          ∃ (scores : List (Opt × ℚ)) (top second : ℚ),
            scoresList w ctx.constraints ctx.available_options = .ok scores ∧
            (scores.map Prod.snd).maximum = (top : WithBot ℚ) ∧
            ((scores.map Prod.snd).erase top).maximum = (second : WithBot ℚ) ∧
            top ≠ 0 ∧
            c = min (0.95 : ℚ) (max (0.1 : ℚ) ((top - second) / top)))) := by
  constructor
  · intro ctx r e' h
    obtain ⟨hne, outcome, hp, hr, -⟩ := make_decision_ok h
    subst hr
    rw [mkResult_confidence]
    rcases hLc : List.insertionSort evalGe
        (collectEvals (strategiesFor defaultEngine ctx.decision_type) ctx)
      with - | ⟨ev, rest⟩
    · simp only [selectionOf]
      norm_num
    · simp only [selectionOf]
      have hev : ev ∈ collectEvals (strategiesFor defaultEngine ctx.decision_type) ctx := by
        have hmemL : ev ∈ List.insertionSort evalGe
            (collectEvals (strategiesFor defaultEngine ctx.decision_type) ctx) := by
          rw [hLc]; exact List.mem_cons_self ..
        exact (List.mem_insertionSort evalGe).mp hmemL
      obtain ⟨s, hs, hok⟩ := mem_collectEvals hev
      have hws : ∃ ws, s = weightedScoringStrategy ws := by
        cases hdt : ctx.decision_type
        case resource_allocation =>
          rw [hdt] at hs
          rw [show strategiesFor defaultEngine DecisionType.resource_allocation =
            [weightedScoringStrategy resourceWeights] from rfl] at hs
          exact ⟨resourceWeights, List.mem_singleton.mp hs⟩
        case task_prioritization =>
          rw [hdt] at hs
          rw [show strategiesFor defaultEngine DecisionType.task_prioritization =
            [weightedScoringStrategy priorityWeights] from rfl] at hs
          exact ⟨priorityWeights, List.mem_singleton.mp hs⟩
        case error_handling =>
          rw [hdt] at hs
          rw [show strategiesFor defaultEngine DecisionType.error_handling =
            [weightedScoringStrategy errorWeights] from rfl] at hs
          exact ⟨errorWeights, List.mem_singleton.mp hs⟩
        case optimization =>
          rw [hdt] at hs
          rw [show strategiesFor defaultEngine DecisionType.optimization =
            [weightedScoringStrategy fallbackWeights] from rfl] at hs
          exact ⟨fallbackWeights, List.mem_singleton.mp hs⟩
        case routing =>
          rw [hdt] at hs
          rw [show strategiesFor defaultEngine DecisionType.routing =
            [weightedScoringStrategy fallbackWeights] from rfl] at hs
          exact ⟨fallbackWeights, List.mem_singleton.mp hs⟩
        case scaling =>
          rw [hdt] at hs
          rw [show strategiesFor defaultEngine DecisionType.scaling =
            [weightedScoringStrategy fallbackWeights] from rfl] at hs
          exact ⟨fallbackWeights, List.mem_singleton.mp hs⟩
      obtain ⟨ws, rfl⟩ := hws
      exact ws_evaluate_conf_bounds hok
  · intro w ctx b c s h
    obtain ⟨scores, hsl, hcf, -⟩ := ws_evaluate_ok_elim h
    have hlen := scoresList_length hsl
    constructor
    · intro hsmall
      simp only [wsConfidence] at hcf
      rw [if_neg (by omega)] at hcf
      simp only [Except.ok.injEq] at hcf
      exact hcf.symm
    · intro hbig
      have h2 : 1 < scores.length := by omega
      simp only [wsConfidence] at hcf
      rw [if_pos h2] at hcf
      have hslen : (sortScores (scores.map Prod.snd)).length = scores.length := by
        simp [sortScores]
      rcases hsrt : sortScores (scores.map Prod.snd) with - | ⟨a, t1⟩
      · rw [hsrt] at hslen
        simp at hslen
        omega
      rcases t1 with - | ⟨b2, t2⟩
      · rw [hsrt] at hslen
        simp at hslen
        omega
      rw [hsrt] at hcf
      simp only [List.headD_cons, List.drop_succ_cons, List.drop_zero] at hcf
      split at hcf
      · exact absurd hcf (by simp)
      next hnz =>
        simp only [Except.ok.injEq] at hcf
        obtain ⟨hmax1, hmax2⟩ := sortScores_two_max hsrt
        exact ⟨scores, a, b2, hsl, hmax1, hmax2, hnz, hcf.symm⟩

/-- Witness for `C6_confidence_bounds`: a default-engine decision on a
single benign option. -/
theorem C6_confidence_bounds_witness :
    make_decision defaultEngine ctxA = .ok (r6, e6res) ∧
    0 ≤ r6.confidence ∧ r6.confidence ≤ 1 := by
  have h : make_decision defaultEngine ctxA = .ok (r6, e6res) := rfl
  obtain ⟨h1, h2⟩ := C6_confidence_bounds.1 ctxA r6 e6res h
  exact ⟨h, h1, h2⟩

/-- Witness for `C2_error_behaviour`: the success branch on the all-failing
engine and a benign option. -/
theorem C2_error_behaviour_witness :
    ∃ p, make_decision engine7 ctxA = .ok p :=
  C2_error_behaviour.2 engine7 ctxA (by decide)
    (by
      intro s hs o c rs hok
      rw [show strategiesFor engine7 ctxA.decision_type = [failStrategy] from rfl] at hs
      rw [List.mem_singleton] at hs
      subst hs
      simp [failStrategy] at hok)
    (by
      intro o ho str hcontra
      rw [show ctxA.available_options = [optA] from rfl, List.mem_singleton] at ho
      subst ho
      rw [show dictGet optA "reliability_score" = none from rfl] at hcontra
      exact Option.noConfusion hcontra)

end SwarmAutomation
